import Mathlib

/-!
Verification of the obsidian-local-rss core pipeline: a shallow embedding of
the template engine, XML normalizers, YAML escaper, image extractor, retention
sweep and the per-feed update loop, translated from `main.ts` and the modules
under `src/` (templateEngine, XmlNormalizer, yamlFormatter, ImageExtractor).

JavaScript strings are modelled as Lean `String`/`List Char`.
`String.prototype.replace(/literal/g, r)` is modelled as literal, left-to-right,
non-overlapping replacement in which the inserted replacement text is not
re-scanned by the same pass (the `$`-escape semantics of JS replacement strings
is not modelled; theorems quantifying over substituted values carry an explicit
dollar-free hypothesis where it matters).
-/

set_option maxHeartbeats 2000000
set_option maxRecDepth 100000

namespace LocalRss

/-- Does pattern `p` match at the head of `s`? (case-sensitive) -/
def matchesAt : List Char → List Char → Bool
  | [], _ => true
  | _ :: _, [] => false
  | p :: ps, c :: cs => (p == c) && matchesAt ps cs

/-- Does pattern `p` occur (as a contiguous substring) anywhere in `s`? -/
def occursIn (p : List Char) : List Char → Bool
  | [] => matchesAt p []
  | c :: rest => matchesAt p (c :: rest) || occursIn p rest

/-- `occursStr s p`: the substring `p` occurs in `s` (JS `String.includes`). -/
def occursStr (s p : String) : Bool := occursIn p.data s.data

/-- One global literal replacement pass, pattern `a :: ps`, replacement `r`:
left-to-right, non-overlapping, the inserted `r` is not re-scanned. The `Nat`
argument is recursion fuel; every step consumes at least one character of the
subject, so fuel equal to the subject's length is always enough. -/
def replaceAllGo (a : Char) (ps r : List Char) : Nat → List Char → List Char
  | 0, s => s
  | _ + 1, [] => []
  | fuel + 1, c :: rest =>
    if (a == c) && matchesAt ps rest then
      r ++ replaceAllGo a ps r fuel (rest.drop ps.length)
    else
      c :: replaceAllGo a ps r fuel rest

/-- JS `s.replace(/p/g, r)` for a literal pattern `p`. -/
def replaceAll (s p r : String) : String :=
  match p.data with
  | [] => s
  | a :: ps => String.mk (replaceAllGo a ps r.data s.data.length s.data)

/-- Template variable data, from `src/utils/templateEngine.ts` (`TemplateData`). -/
structure TemplateData where
  title : String
  link : String
  author : String
  publishedTime : String
  savedTime : String
  image : String
  description : String
  descriptionShort : String
  tags : String
  content : String
deriving DecidableEq

def tokTitle : String := "\x7b\x7btitle\x7d\x7d"
def tokLink : String := "\x7b\x7blink\x7d\x7d"
def tokAuthor : String := "\x7b\x7bauthor\x7d\x7d"
def tokPublishedTime : String := "\x7b\x7bpublishedTime\x7d\x7d"
def tokSavedTime : String := "\x7b\x7bsavedTime\x7d\x7d"
def tokImage : String := "\x7b\x7bimage\x7d\x7d"
def tokDescription : String := "\x7b\x7bdescription\x7d\x7d"
def tokDescriptionShort : String := "\x7b\x7bdescriptionShort\x7d\x7d"
def tokTags : String := "\x7b\x7b#tags\x7d\x7d"
def tokContent : String := "\x7b\x7bcontent\x7d\x7d"
def tokPublished : String := "\x7b\x7bpublished\x7d\x7d"

/-- `renderTemplate` from `src/utils/templateEngine.ts` (also the inline chain in
`main.ts` `processRssItem`/`processAtomItem`): ten chained global literal
replacements in source order. -/
def renderTemplate (template : String) (d : TemplateData) : String :=
  let s1 := replaceAll template tokTitle d.title
  let s2 := replaceAll s1 tokLink d.link
  let s3 := replaceAll s2 tokAuthor d.author
  let s4 := replaceAll s3 tokPublishedTime d.publishedTime
  let s5 := replaceAll s4 tokSavedTime d.savedTime
  let s6 := replaceAll s5 tokImage d.image
  let s7 := replaceAll s6 tokDescription d.description
  let s8 := replaceAll s7 tokDescriptionShort d.descriptionShort
  let s9 := replaceAll s8 tokTags d.tags
  replaceAll s9 tokContent d.content

/-- No dollar sign in the string: under this condition JS's `$`-escape handling
in replacement strings coincides with literal replacement. -/
def NoDollar (s : String) : Prop := '$' ∉ s.data

instance (s : String) : Decidable (NoDollar s) := by
  unfold NoDollar
  infer_instance

/-! ## Template pre-pass, XML normalization, YAML escaping, retention sweep -/

/-- JS `a || b` on an optional string field: an absent field and an empty
string are both falsy. -/
def jsOrStr (v : Option String) (dflt : String) : String :=
  match v with
  | some s => if s = "" then dflt else s
  | none => dflt

/-- One line of `removeImageLines`: take the current line (up to `\n`). -/
def takeLine (l : List Char) : List Char := l.takeWhile (fun c => !(c == '\n'))

/-- Characters after the current line, the `\n` itself dropped when present. -/
def dropLine (l : List Char) : List Char :=
  match l.dropWhile (fun c => !(c == '\n')) with
  | [] => []
  | _ :: rest => rest

/-- Whether the line ended with `\n` (so a kept line re-emits it). -/
def lineHasNl (l : List Char) : Bool :=
  match l.dropWhile (fun c => !(c == '\n')) with
  | [] => false
  | _ :: _ => true

/-- `template.replace(/^.*\x7b\x7bimage\x7d\x7d.*\n?/gm, '')`: delete every
full line containing the `image` token, with its trailing newline. The `Nat`
argument is recursion fuel; each step consumes at least one character, so fuel
equal to the subject's length is always enough. -/
def removeImageLinesGo : Nat → List Char → List Char
  | 0, l => l
  | _ + 1, [] => []
  | fuel + 1, c :: cs =>
    let line := takeLine (c :: cs)
    let rest := removeImageLinesGo fuel (dropLine (c :: cs))
    if occursIn tokImage.data line then rest
    else if lineHasNl (c :: cs) then line ++ '\n' :: rest else line ++ rest

/-- `prepareTemplate` from `src/utils/templateEngine.ts` / `main.ts`: when the
item has no image URL, strip every template line mentioning the image token. -/
def prepareTemplate (template : String) (imageUrl : String) : String :=
  if imageUrl = "" then
    String.mk (removeImageLinesGo template.data.length template.data)
  else template

/-- xml2js text value: a string, or a `{_: text}` wrapper object (`obj none`
stands for an object without a `_` field). From `XmlNormalizer.normalizeValue`. -/
inductive XmlVal where
  | str (s : String)
  | obj (u : Option String)
deriving DecidableEq

/-- `XmlNormalizer.normalizeValue`: falsy → `""`; string → itself; object with
a `_` field → that field; anything else → `""`. -/
def normalizeValue : Option XmlVal → String
  | none => ""
  | some (.str s) => s
  | some (.obj u) => u.getD ""

/-- One Atom `<link>` representation: it may carry an xml2js attribute object
`$` with an `href` (field `attrHref`), and/or a direct `href` field. -/
structure AtomLinkObj where
  attrHref : Option String
  href : Option String
deriving DecidableEq

/-- Resolution of one link object by `normalizeAtomLink`
(`src/utils/htmlProcessor.ts` bundle, latest `XmlNormalizer`): the attribute
form `{$: {href}}` is tried first, then the direct `{href}` form, else `""`. -/
def resolveAtomLinkObj (o : AtomLinkObj) : String :=
  match o.attrHref with
  | some h => h
  | none =>
    match o.href with
    | some h => h
    | none => ""

/-- An Atom `link` value: absent, a single object, or an array of objects. -/
inductive AtomLinkNode where
  | single (o : AtomLinkObj)
  | many (l : List AtomLinkObj)
deriving DecidableEq

/-- `XmlNormalizer.normalizeAtomLink`: an array resolves to its first element
(`""` for an empty array), a single object resolves directly, absence → `""`. -/
def normalizeAtomLink : Option AtomLinkNode → String
  | none => ""
  | some (.single o) => resolveAtomLinkObj o
  | some (.many l) =>
    match l with
    | [] => ""
    | o :: _ => resolveAtomLinkObj o

/-- JS whitespace (ASCII fragment) as removed by `String.prototype.trim`. -/
def isJsWs (c : Char) : Bool :=
  c == ' ' || c == '\t' || c == '\n' || c == '\r' || c == '\x0b' || c == '\x0c'

/-- `value.replace(/\r?\n/g, ' ')`: every `\r\n` or lone `\n` becomes one
space; a `\r` not followed by `\n` is kept. -/
def collapseNL : List Char → List Char
  | [] => []
  | c :: rest =>
    if c == '\n' then ' ' :: collapseNL rest
    else if c == '\r' then
      match rest with
      | [] => [c]
      | d :: rest2 =>
        if d == '\n' then ' ' :: collapseNL rest2 else c :: collapseNL (d :: rest2)
    else c :: collapseNL rest

/-- JS `String.prototype.trim` (ASCII whitespace fragment). -/
def trimChars (l : List Char) : List Char :=
  ((l.dropWhile isJsWs).reverse.dropWhile isJsWs).reverse

/-- The YAML special character class `[[\]\x7b\x7d:>|*&!%@,]` from
`src/utils/yamlFormatter.ts` (`YAML_SPECIAL_CHARS`). -/
def isYamlSpecial (c : Char) : Bool :=
  c == '[' || c == ']' || c == '\x7b' || c == '\x7d' || c == ':' || c == '>' ||
  c == '|' || c == '*' || c == '&' || c == '!' || c == '%' || c == '@' || c == ','

/-- `.replace(/\\/g, '\\\\')`: double every backslash. -/
def escBackslash : List Char → List Char
  | [] => []
  | c :: rest =>
    if c == '\\' then '\\' :: '\\' :: escBackslash rest else c :: escBackslash rest

/-- `.replace(/"/g, '\\"')`: escape every double quote. -/
def escQuote : List Char → List Char
  | [] => []
  | c :: rest =>
    if c == '\x22' then '\\' :: '\x22' :: escQuote rest else c :: escQuote rest

/-- `escapeYamlValue` from `src/utils/yamlFormatter.ts` / `main.ts`: collapse
line breaks to spaces, trim, and if a YAML special character remains, escape
backslashes and quotes and wrap in double quotes; else return the trimmed
value unchanged. -/
def escapeYamlValue (value : String) : String :=
  let v := trimChars (collapseNL value.data)
  if v.any isYamlSpecial then
    String.mk ('\x22' :: (escQuote (escBackslash v) ++ ['\x22']))
  else
    String.mk v

/-- Inverse of the quote/backslash escaping: scan left to right, turning
`\\\\` back into `\\` and `\\"` back into `"`. -/
def unescChars : List Char → List Char
  | [] => []
  | [c] => [c]
  | a :: b :: rest =>
    if a == '\\' && (b == '\\' || b == '\x22') then b :: unescChars rest
    else a :: unescChars (b :: rest)

/-- Strip one pair of surrounding double quotes, when present. -/
def stripQuotes (l : List Char) : List Char :=
  match l with
  | [] => []
  | c :: rest =>
    if c == '\x22' && rest.getLast? == some '\x22' then rest.dropLast else c :: rest

/-- The round trip named by the spec: escape, strip the surrounding quotes,
un-escape backslashes and quotes. -/
def yamlRoundTrip (s : String) : String :=
  String.mk (unescChars (stripQuotes (escapeYamlValue s).data))

/-- The original string with only its newlines collapsed to spaces. -/
def collapseOnly (s : String) : String := String.mk (collapseNL s.data)

/-- The original string with newlines collapsed and then trimmed. -/
def collapseTrim (s : String) : String := String.mk (trimChars (collapseNL s.data))

/-- Capture of `(.*?)$` in a multiline JS regex, starting right after the
matched literal: the characters up to the next line terminator. -/
def captureToEol (l : List Char) : List Char :=
  l.takeWhile (fun c => !(c == '\n' || c == '\r'))

/-- First-match extraction for `/tok (.*?)$/m`-style regexes in
`deleteOldFiles`: find the leftmost occurrence of `tok` and capture the rest
of that line. `none` when `tok` does not occur. -/
def extractTokL (tok : List Char) : List Char → Option (List Char)
  | [] => none
  | c :: rest =>
    if matchesAt tok (c :: rest) then some (captureToEol ((c :: rest).drop tok.length))
    else extractTokL tok rest

/-- String-level wrapper for `extractTokL`. -/
def extractLine (tok content : String) : Option String :=
  (extractTokL tok.data content.data).map String.mk

/-- `deleteOldFiles` cutoff: `Date.now() - autoDeleteDays * unitMillis`, with
`unitMillis = 60 * 1000` for `"minutes"` and `24 * 60 * 60 * 1000` otherwise. -/
def cutoffOf (now days : Int) (unit : String) : Int :=
  if unit = "minutes" then now - days * 60000 else now - days * 86400000

/-- The `publish_date` branch of `deleteOldFiles` (`main.ts`): returns `true`
iff the file is deleted. `parseDate` is the `new Date(s).getTime()` oracle
(`none` = `NaN`); the code's `publishedTime &&` truthiness test rejects both
`NaN` and the numeric value `0`. -/
def publishDateDelete (parseDate : String → Option Int) (content : String)
    (cutoff : Int) : Bool :=
  match extractLine "publish_date: " content with
  | none => false
  | some cap =>
    if cap = "" then false
    else
      match parseDate cap with
      | none => false
      | some t => decide (t ≠ 0 ∧ t < cutoff)

/-- The `saved` (else) branch of `deleteOldFiles` (`main.ts`): a matching,
parsable `saved:` line drives the decision; with no match (or an empty
capture) the file's creation time is compared against the cutoff instead. -/
def savedDelete (parseDate : String → Option Int) (content : String)
    (ctime cutoff : Int) : Bool :=
  match extractLine "saved: " content with
  | none => decide (ctime < cutoff)
  | some cap =>
    if cap = "" then decide (ctime < cutoff)
    else
      match parseDate cap with
      | none => false
      | some t => decide (t ≠ 0 ∧ t < cutoff)

/-- The default content template (`DEFAULT_SETTINGS.template` in `main.ts`). -/
def defaultTemplate : String :=
  "---\ntitle: \x7b\x7btitle\x7d\x7d\nlink: \x7b\x7blink\x7d\x7d\nauthor: \x7b\x7bauthor\x7d\x7d\npublish_date: \x7b\x7bpublishedTime\x7d\x7d\nsaved_date: \x7b\x7bsavedTime\x7d\x7d\nimage: \x7b\x7bimage\x7d\x7d\ntags: \x7b\x7b#tags\x7d\x7d\n---\n\n![image](\x7b\x7bimage\x7d\x7d)\n\n\x7b\x7bcontent\x7d\x7d"

/-! ## ImageExtractor (`src/services/ImageExtractor.ts`, `main.ts`) -/

/-- A `media:content` / `media:thumbnail` value: a plain string or an xml2js
attribute object `{$: {url}}` (`obj none` = object without `$.url`). -/
inductive MediaVal where
  | str (s : String)
  | obj (url : Option String)
deriving DecidableEq

/-- One `media:content`/`media:thumbnail` block of `extractFromMediaElements`:
the URL this step would return, or `none` when control falls through (field
absent, falsy string, or object without a truthy `$.url`). -/
def resolveMediaVal : Option MediaVal → Option String
  | none => none
  | some (.str s) => if s = "" then none else some s
  | some (.obj u) =>
    match u with
    | some url => if url = "" then none else some url
    | none => none

/-- An `enclosure` value: a plain string or an attribute object with optional
`$.url` and `$.type`. -/
inductive EnclosureVal where
  | str (s : String)
  | obj (url : Option String) (mime : Option String)
deriving DecidableEq

/-- The URL the enclosure block reads out (`''` when nothing resolves). -/
def enclosureUrlOf : EnclosureVal → String
  | .str s => s
  | .obj u _ => u.getD ""

/-- JS truthiness of the enclosure field itself (`if (rssItem.enclosure)`). -/
def enclosureTruthy : EnclosureVal → Bool
  | .str s => !(s == "")
  | .obj _ _ => true

/-- Case-insensitive head match (pattern given in lower case). -/
def matchesAtCI : List Char → List Char → Bool
  | [], _ => true
  | _ :: _, [] => false
  | p :: ps, c :: cs => (p == c.toLower) && matchesAtCI ps cs

/-- `p.data` is a prefix of `s` at this position (case-sensitive); on success
return the rest. -/
def dropTok (p : List Char) (l : List Char) : Option (List Char) :=
  if matchesAt p l then some (l.drop p.length) else none

/-- Case-insensitive variant of `dropTok` (pattern in lower case). -/
def dropTokCI (p : List Char) (l : List Char) : Option (List Char) :=
  if matchesAtCI p l then some (l.drop p.length) else none

/-- `s.startsWith(p)` (case-sensitive). -/
def strStartsWith (s p : String) : Bool := matchesAt p.data s.data

/-- The image-extension test `/\.(jpg|jpeg|png|gif|webp)(\?|$)/i`, applied to
the characters following a `.`: one of the extensions, then `?` or the end. -/
def extMatchAfterDot (l : List Char) : Bool :=
  ["jpg".data, "jpeg".data, "png".data, "gif".data, "webp".data].any fun e =>
    matchesAtCI e l &&
      match l.drop e.length with
      | [] => true
      | c :: _ => c == '?'

/-- Scan for a `.` followed by an accepted image extension. -/
def hasImgExt : List Char → Bool
  | [] => false
  | c :: rest => (c == '.' && extMatchAfterDot rest) || hasImgExt rest

/-- `ImageExtractor.isImageUrl`: image extension, or a known image-host
substring in the URL. -/
def isImageUrl (url : String) : Bool :=
  hasImgExt url.data || occursStr url "cloudinary.com" || occursStr url "imgur.com" ||
    occursStr url "googleusercontent.com"

/-- Whether the enclosure carries an explicit `image/*` MIME type
(`enclosure.$ && enclosure.$.type && enclosure.$.type.startsWith('image/')`). -/
def encMimeImage : EnclosureVal → Bool
  | .obj _ (some ty) => strStartsWith ty "image/"
  | _ => false

/-- The enclosure block of `extractFromMediaElements`: the URL this step
returns, or `none` when the enclosure is rejected and control falls through. -/
def enclosureStep : Option EnclosureVal → Option String
  | none => none
  | some e =>
    if !enclosureTruthy e then none
    else
      let url := enclosureUrlOf e
      if url = "" then none
      else if isImageUrl url then some url
      else if encMimeImage e then some url
      else none

/-- The fields of a feed item consulted by the image extractor. `Option`
models field presence (the `'key' in item` checks); `some ""` is a present but
falsy value. -/
structure ExtractItem where
  mediaContent : Option MediaVal
  mediaThumbnail : Option MediaVal
  enclosure : Option EnclosureVal
  contentEncoded : Option String
  description : Option String
  content : Option XmlVal
  summary : Option XmlVal
deriving DecidableEq

/-- `ImageExtractor.extractFromMediaElements`: guarded by the presence of any
media key; `media:content`, then `media:thumbnail`, then `enclosure`. -/
def extractFromMediaElements (it : ExtractItem) : String :=
  if it.mediaContent.isSome || it.mediaThumbnail.isSome || it.enclosure.isSome then
    match resolveMediaVal it.mediaContent with
    | some u => u
    | none =>
      match resolveMediaVal it.mediaThumbnail with
      | some u => u
      | none => (enclosureStep it.enclosure).getD ""
  else ""

/-- A single quote or double quote (the regex class `["']`). -/
def isQuoteCh (c : Char) : Bool := c == '\x22' || c == '\x27'

/-- Lazy capture `(.*?)["']`: characters up to the first quote, failing on a
line terminator (JS `.` does not match `\n`/`\r`). Returns capture and rest. -/
def captureToQuote (l : List Char) : Option (List Char × List Char) :=
  let cap := l.takeWhile fun c => !(isQuoteCh c || c == '\n' || c == '\r')
  match l.drop cap.length with
  | c :: rest2 => if isQuoteCh c then some (cap, rest2) else none
  | [] => none

/-- Consume one quote character. -/
def parseQuote : List Char → Option (List Char)
  | c :: rest => if isQuoteCh c then some rest else none
  | [] => none

/-- Consume `\s+` (at least one whitespace, then as many as possible). -/
def skipWs1 : List Char → Option (List Char)
  | c :: rest => if isJsWs c then some (rest.dropWhile isJsWs) else none
  | [] => none

/-- `.*?src=` of the embedded-image regex: lazily scan (without crossing a
line terminator) for `src=`. -/
def scanToSrc : List Char → Option (List Char)
  | [] => none
  | c :: rest =>
    if matchesAt "src=".data (c :: rest) then some ((c :: rest).drop 4)
    else if c == '\n' || c == '\r' then none
    else scanToSrc rest

/-- One attempt of `/<img.*?src=["'](.*?)["']/` at the current position. -/
def imgSrcAt (l : List Char) : Option (List Char) := do
  let l ← dropTok "<img".data l
  let l ← scanToSrc l
  let l ← parseQuote l
  let (cap, _) ← captureToQuote l
  pure cap

/-- Leftmost match of the embedded-image regex over the whole content. -/
def firstImgSrc : List Char → Option (List Char)
  | [] => none
  | c :: rest =>
    match imgSrcAt (c :: rest) with
    | some cap => some cap
    | none => firstImgSrc rest

/-- `ImageExtractor.extractFromHtmlContent`: choose the HTML source per item
shape (`content:encoded || description` for RSS, normalized
`content || summary` for Atom), then return the first `<img ... src>`. -/
def extractFromHtmlContent (it : ExtractItem) : String :=
  let content :=
    if it.contentEncoded.isSome then jsOrStr it.contentEncoded (jsOrStr it.description "")
    else if it.content.isSome then
      let c := normalizeValue it.content
      if c = "" then normalizeValue it.summary else c
    else ""
  if content = "" then ""
  else
    match firstImgSrc content.data with
    | some cap => String.mk cap
    | none => ""

/-- `ImageExtractor.extractFromItem`: media elements first, then embedded
HTML, else `""`. -/
def extractFromItem (it : ExtractItem) : String :=
  let mediaUrl := extractFromMediaElements it
  if mediaUrl ≠ "" then mediaUrl
  else
    let contentUrl := extractFromHtmlContent it
    if contentUrl ≠ "" then contentUrl else ""

/-- One attempt of `/<meta\s+attr=["']value["']\s+content=["'](.*?)["']/i` at
the current position (`attr`/`value` given in lower case). -/
def metaKeyFirstAt (attr value : List Char) (l : List Char) : Option (List Char) := do
  let l ← dropTokCI "<meta".data l
  let l ← skipWs1 l
  let l ← dropTokCI (attr ++ ['=']) l
  let l ← parseQuote l
  let l ← dropTokCI value l
  let l ← parseQuote l
  let l ← skipWs1 l
  let l ← dropTokCI "content=".data l
  let l ← parseQuote l
  let (cap, _) ← captureToQuote l
  pure cap

/-- One attempt of the attribute-order-swapped variant
`/<meta\s+content=["'](.*?)["']\s+attr=["']value["']/i`. -/
def metaContentFirstAt (attr value : List Char) (l : List Char) : Option (List Char) := do
  let l ← dropTokCI "<meta".data l
  let l ← skipWs1 l
  let l ← dropTokCI "content=".data l
  let l ← parseQuote l
  let (cap, l) ← captureToQuote l
  let l ← skipWs1 l
  let l ← dropTokCI (attr ++ ['=']) l
  let l ← parseQuote l
  let l ← dropTokCI value l
  let _ ← parseQuote l
  pure cap

/-- Leftmost match of a positional matcher over the whole document. -/
def scanFor (f : List Char → Option (List Char)) : List Char → Option (List Char)
  | [] => none
  | c :: rest =>
    match f (c :: rest) with
    | some cap => some cap
    | none => scanFor f rest

/-- `ogImageMatch1` (`/<meta\s+property=["']og:image["']\s+content=["'](.*?)["']/i`),
as the code uses it: the captured group, `""` when absent or empty. -/
def ogImageMatch1 (html : String) : String :=
  ((scanFor (metaKeyFirstAt "property".data "og:image".data) html.data).map String.mk).getD ""

/-- `ogImageMatch2`: the attribute-order-swapped og:image variant. -/
def ogImageMatch2 (html : String) : String :=
  ((scanFor (metaContentFirstAt "property".data "og:image".data) html.data).map String.mk).getD ""

/-- `twitterImageMatch1` (`name="twitter:image"` then `content`). -/
def twitterImageMatch1 (html : String) : String :=
  ((scanFor (metaKeyFirstAt "name".data "twitter:image".data) html.data).map String.mk).getD ""

/-- `twitterImageMatch2`: the swapped twitter:image variant. -/
def twitterImageMatch2 (html : String) : String :=
  ((scanFor (metaContentFirstAt "name".data "twitter:image".data) html.data).map String.mk).getD ""

/-- The accumulation chain of `fetchFromUrl`: each matcher is consulted only
while `imageUrl` is still empty. -/
def firstMeta (html : String) : String :=
  let u := ogImageMatch1 html
  if u ≠ "" then u
  else
    let u := ogImageMatch2 html
    if u ≠ "" then u
    else
      let u := twitterImageMatch1 html
      if u ≠ "" then u
      else twitterImageMatch2 html

/-- `ImageExtractor.fetchFromUrl` (`src/services/ImageExtractor.ts`, latest
version with the root-relative rewrite).

Modelled from the spec: `FeedFetcher.fetchHtml` (`src/adapters/http/
FeedFetcher.ts` is not among the sources); per §4.2 of the spec it returns the
fetched text, signals failure as an empty result, and does not throw — its
outcome is the `fetchedHtml` argument. `urlOrigin` is the `new URL(url).origin`
oracle; `none` models the constructor throwing, which the `catch` turns into
`""`. -/
def fetchFromUrl (urlOrigin : String → Option String) (fetchedHtml url : String) : String :=
  if fetchedHtml = "" then ""
  else
    let imageUrl := firstMeta fetchedHtml
    if imageUrl = "" then ""
    else if strStartsWith imageUrl "/" then
      match urlOrigin url with
      | some origin => origin ++ imageUrl
      | none => ""
    else imageUrl

/-! ## ArticleWriter and UpdateOrchestrator (`main.ts`) -/

/-- The raw item fields that determine an article's file path. -/
structure ItemKey where
  title : Option String
  pubDate : Option String
  published : Option String
deriving DecidableEq

/-- `item.title || 'Untitled'`. -/
def titleOf (it : ItemKey) : String := jsOrStr it.title "Untitled"

/-- `item.pubDate || item.published || new Date().toISOString()`. -/
def pubDateStrOf (it : ItemKey) (nowIso : String) : String :=
  jsOrStr it.pubDate (jsOrStr it.published nowIso)

/-- Whether the item supplies its own (truthy) date, so the pub date string
does not depend on the processing time. -/
def pubDatePresent (it : ItemKey) : Bool :=
  (match it.pubDate with | some s => !(s == "") | none => false) ||
  (match it.published with | some s => !(s == "") | none => false)

/-- A character replaced by `-` in `fileName.replace(/[\\/:*?"<>|]/g, '-')`. -/
def isFileNameBad (c : Char) : Bool :=
  c == '\\' || c == '/' || c == ':' || c == '*' || c == '?' || c == '\x22' ||
  c == '<' || c == '>' || c == '|'

/-- Filename sanitization from `processRssItem`/`processAtomItem`. -/
def sanitizeFileName (s : String) : String :=
  String.mk (s.data.map fun c => if isFileNameBad c then '-' else c)

/-- The computed article path (`normalizePath` is the identity in this model):
substitute `title` and `published` into the filename template, sanitize, and
prefix the feed folder. `fmtDate` is the
`formatDateTime(new Date(·))` oracle. -/
def computedPath (fmtDate : String → String) (fileNameTemplate folder nowIso : String)
    (it : ItemKey) : String :=
  let fn := replaceAll fileNameTemplate tokTitle (titleOf it)
  let fn := replaceAll fn tokPublished (fmtDate (pubDateStrOf it nowIso))
  folder ++ "/" ++ sanitizeFileName fn ++ ".md"

/-- The vault as a list of `(path, content)` files, in creation order. -/
abbrev Vault : Type := List (String × String)

/-- `getAbstractFileByPath` as an existence check. -/
def vaultHas (v : Vault) (path : String) : Bool :=
  v.any fun e => e.1 == path

/-- The write step of `processRssItem`/`processAtomItem`: if a file already
exists at the path, return unchanged (skip — no overwrite, no error);
otherwise create the file. -/
def writeStep (v : Vault) (path content : String) : Vault :=
  if vaultHas v path then v else v ++ [(path, content)]

/-- One update pass over a feed's items: sequentially compute each item's path
and apply the existence-checked write. `render` abstracts the article's
rendered text (it plays no role in the skip decision). -/
def processPass (fmtDate : String → String) (render : ItemKey → String → String)
    (fileNameTemplate folder nowIso : String) (v : Vault) (items : List ItemKey) : Vault :=
  items.foldl
    (fun acc it =>
      writeStep acc (computedPath fmtDate fileNameTemplate folder nowIso it) (render it nowIso))
    v

/-- An item's processing outcome: `good` processes normally, `bad` throws. -/
inductive RawItem where
  | good
  | bad
deriving DecidableEq

/-- The parsed `channel.item` (or `feed.entry`) field: with
`explicitArray: false` it is absent, a single object, or an array. -/
inductive ItemsNode where
  | single (it : RawItem)
  | arr (l : List RawItem)
deriving DecidableEq

/-- `Array.isArray(channel.item) ? channel.item : [channel.item]`: an absent
field is wrapped as the one-element list `[undefined]`. -/
def normalizeItemSeq : Option ItemsNode → List (Option RawItem)
  | none => [none]
  | some (.single it) => [some it]
  | some (.arr l) => l.map some

/-- Processing one element of the normalized sequence: reading `.title` of
`undefined` throws, a `bad` item throws, a `good` item succeeds. -/
def processOneItem : Option RawItem → Except Unit Unit
  | none => .error ()
  | some .bad => .error ()
  | some .good => .ok ()

/-- User-visible events of one run (notices and item writes). -/
inductive FeedEvent where
  | failedFetch (name : String)
  | errorUpdating (name : String)
  | unsupported (name : String)
  | itemSaved (name : String) (idx : Nat)
  | updated (name : String)
deriving DecidableEq

/-- The environment-determined outcome of fetching and parsing one feed. -/
inductive FetchOutcome where
  | throwErr
  | non200
  | rss (items : Option ItemsNode)
  | unsupportedDoc
deriving DecidableEq

/-- One configured feed together with its outcome for this run. -/
structure FeedRun where
  name : String
  enabled : Bool
  fetch : FetchOutcome
deriving DecidableEq

/-- The item loop inside the per-feed `try`: items are processed sequentially
until one throws; returns the events so far and whether a throw occurred. -/
def processItemsLoop (name : String) : Nat → List (Option RawItem) → List FeedEvent × Bool
  | _, [] => ([], false)
  | i, it :: rest =>
    match processOneItem it with
    | .error _ => ([], true)
    | .ok _ =>
      let (evs, threw) := processItemsLoop name (i + 1) rest
      (.itemSaved name i :: evs, threw)

/-- The per-feed body of `updateFeeds` with its `try`/`catch`: a throwing
fetch yields one error notice; a non-200 status yields one failure notice and
`continue`; an unsupported document yields one unsupported notice; otherwise
the item loop runs, a throw inside it being caught at this boundary. -/
def processOneFeed (f : FeedRun) : List FeedEvent :=
  match f.fetch with
  | .throwErr => [.errorUpdating f.name]
  | .non200 => [.failedFetch f.name]
  | .unsupportedDoc => [.unsupported f.name]
  | .rss itemsField =>
    let (evs, threw) := processItemsLoop f.name 0 (normalizeItemSeq itemsField)
    if threw then evs ++ [.errorUpdating f.name]
    else evs ++ [.updated f.name]

/-- The feed loop of `updateFeeds`: enabled feeds are processed sequentially,
each contributing its own events. -/
def runEnabled : List FeedRun → List FeedEvent
  | [] => []
  | f :: rest => (if f.enabled then processOneFeed f else []) ++ runEnabled rest

/-- Failure notices (`failedToFetchFeed` / `errorUpdatingFeed`). -/
def isFailureNotice : FeedEvent → Bool
  | .failedFetch _ => true
  | .errorUpdating _ => true
  | _ => false

/-- Whether this feed's processing fails for the run (throwing fetch, non-200
status, or a throw inside the item loop). -/
def feedFails (f : FeedRun) : Bool :=
  match f.fetch with
  | .throwErr => true
  | .non200 => true
  | .rss itemsField => (processItemsLoop f.name 0 (normalizeItemSeq itemsField)).2
  | .unsupportedDoc => false

/-! ## Concrete inputs used by individual claims -/

/-- A `new Date(s).getTime()` oracle knowing only the Unix epoch instant:
in JS, `new Date('1970-01-01T00:00:00.000Z').getTime()` is the valid time `0`,
and every other string is mapped to `NaN` here. -/
def epochParse : String → Option Int :=
  fun s => if s = "1970-01-01T00:00:00.000Z" then some (0 : Int) else none

/-- A `new Date(s).getTime()` oracle for strings that JS cannot parse
(`Invalid Date`, i.e. `NaN`): in particular `new Date('money\x22')` is
invalid. -/
def invalidParse : String → Option Int := fun _ => none

/-- Benign template data for a default-template rendering: no substituted
value contains the literal `saved: `. -/
def c9BenignData : TemplateData :=
  ⟨escapeYamlValue "Sample Title", "https://ex.example/a", escapeYamlValue "Author",
    "2024-01-01 00:00:00", "2024-01-02 00:00:00", "https://img.example/i.png",
    "Desc", "Desc", "#tag", "Body text"⟩

/-- Template data whose title value contains the literal `saved: ` — after
YAML quoting, the rendered title line matches the sweeper's `saved:` regex. -/
def c9InjectData : TemplateData :=
  ⟨escapeYamlValue "How I saved: money", "https://ex.example/a", escapeYamlValue "Author",
    "2024-01-01 00:00:00", "2024-01-02 00:00:00", "https://img.example/i.png",
    "Desc", "Desc", "#tag", "Body text"⟩

/-- A fetched page carrying a twitter:image before an og:image (both
root-relative), to exercise the matcher precedence of `fetchFromUrl`. -/
def c3SampleHtml : String :=
  "<html><meta name=\x22twitter:image\x22 content=\x22/t.png\x22><meta property=\x22og:image\x22 content=\x22/og.png\x22></html>"

/-- An item carrying both a `media:content` attribute object and an embedded
`<img>` inside `content:encoded`. -/
def c5MediaAndImgItem : ExtractItem :=
  ⟨some (.obj (some "https://m.example/pic.png")), none, none,
    some "<p><img class=\x22x\x22 src=\x22https://e.example/i.jpg\x22></p>", none, none, none⟩

/-- An item whose enclosure is a podcast audio file (no image extension, no
image host, `audio/mpeg` MIME) and whose description embeds an `<img>`. -/
def c5AudioEnclosureItem : ExtractItem :=
  ⟨none, none, some (.obj (some "https://cdn.example/ep1.mp3") (some "audio/mpeg")),
    some "", some "<img src=\x22https://e.example/i.jpg\x22>", none, none⟩

/-- An item with no extractable image anywhere. -/
def c5EmptyItem : ExtractItem := ⟨none, none, none, none, none, none, none⟩

end LocalRss

namespace LocalRss

/-! ## Generic lemmas about the string model -/

theorem matchesAt_refl : ∀ l : List Char, matchesAt l l = true := by
  intro l
  induction l with
  | nil => rfl
  | cons c rest ih => simp [matchesAt, ih]

theorem replaceAllGo_of_not_occurs (a : Char) (ps r : List Char) :
    ∀ (fuel : Nat) (s : List Char),
      occursIn (a :: ps) s = false → replaceAllGo a ps r fuel s = s := by
  intro fuel
  induction fuel with
  | zero => intro s _; rfl
  | succ fuel ih =>
    intro s h
    cases s with
    | nil => rfl
    | cons c rest =>
      simp only [occursIn, Bool.or_eq_false_iff] at h
      obtain ⟨h1, h2⟩ := h
      simp only [matchesAt] at h1
      rw [replaceAllGo, if_neg, ih rest h2]
      simp only [h1]
      exact Bool.false_ne_true

theorem replaceAll_of_not_occurs (s p r : String) (h : occursStr s p = false) :
    replaceAll s p r = s := by
  unfold occursStr at h
  unfold replaceAll
  cases hp : p.data with
  | nil => rfl
  | cons a ps =>
    rw [hp] at h
    show String.mk (replaceAllGo a ps r.data s.data.length s.data) = s
    rw [replaceAllGo_of_not_occurs a ps r.data s.data.length s.data h]

theorem replaceAllGo_self (a : Char) (ps r : List Char) (fuel : Nat) :
    replaceAllGo a ps r (fuel + 1) (a :: ps) = r := by
  rw [replaceAllGo]
  simp only [matchesAt_refl, beq_self_eq_true, Bool.and_self, if_pos, List.drop_length]
  cases fuel <;> simp [replaceAllGo]

/-- Replacing a pattern that is the whole subject yields exactly the
replacement: each pass is single-pass, the inserted text is not re-scanned. -/
theorem replaceAll_self (p r : String) (h : p ≠ "") : replaceAll p p r = r := by
  unfold replaceAll
  cases p with
  | mk d =>
    cases d with
    | nil => exact absurd rfl h
    | cons a ps =>
      show String.mk (replaceAllGo a ps r.data (a :: ps).length (a :: ps)) = r
      rw [List.length_cons, replaceAllGo_self]

end LocalRss

namespace LocalRss

/-! ## C1 — template rendering and re-expansion -/

/-- **C1, counterexample.** The claim says a substituted value that itself
contains a placeholder token is never re-expanded by a later substitution.
In the code the ten global replacements are chained, so a title whose text is
the literal content token is rewritten again by the later content pass: the
rendered output is "C and C" and the token does not survive verbatim. -/
theorem renderTemplate_reexpands_later_token_cex :
    renderTemplate "\x7b\x7btitle\x7d\x7d and \x7b\x7bcontent\x7d\x7d"
        ⟨"\x7b\x7bcontent\x7d\x7d", "", "", "", "", "", "", "", "", "C"⟩ = "C and C"
    ∧ occursStr "C and C" tokContent = false := by
  constructor
  · decide
  · decide

/-- **C1, amended.** Each individual replacement is a single-pass literal
global substitution — text inserted by a pass is not re-scanned by that same
pass — so a value substituted for the last token of the chain (content)
appears verbatim in the output, and a title value equal to the title token
itself is not re-expanded; but a value containing a token that is substituted
later in the fixed order is re-expanded by that later pass (see the
counterexample). -/
theorem renderTemplate_single_pass_per_token :
    (∀ d : TemplateData, NoDollar d.content → renderTemplate tokContent d = d.content)
    ∧ renderTemplate tokTitle ⟨tokTitle, "", "", "", "", "", "", "", "", ""⟩ = tokTitle := by
  constructor
  · intro d _
    simp only [renderTemplate]
    rw [replaceAll_of_not_occurs tokContent tokTitle d.title (by decide),
      replaceAll_of_not_occurs tokContent tokLink d.link (by decide),
      replaceAll_of_not_occurs tokContent tokAuthor d.author (by decide),
      replaceAll_of_not_occurs tokContent tokPublishedTime d.publishedTime (by decide),
      replaceAll_of_not_occurs tokContent tokSavedTime d.savedTime (by decide),
      replaceAll_of_not_occurs tokContent tokImage d.image (by decide),
      replaceAll_of_not_occurs tokContent tokDescription d.description (by decide),
      replaceAll_of_not_occurs tokContent tokDescriptionShort d.descriptionShort (by decide),
      replaceAll_of_not_occurs tokContent tokTags d.tags (by decide),
      replaceAll_self tokContent d.content (by decide)]
  · decide

/-- Witness for the amended C1 theorem at a concrete input: a content value
that itself contains the title token is emitted verbatim. -/
theorem renderTemplate_single_pass_per_token_witness :
    renderTemplate tokContent ⟨"", "", "", "", "", "", "", "", "", "x\x7b\x7btitle\x7d\x7dy"⟩ =
      "x\x7b\x7btitle\x7d\x7dy" :=
  renderTemplate_single_pass_per_token.1
    ⟨"", "", "", "", "", "", "", "", "", "x\x7b\x7btitle\x7d\x7dy"⟩ (by decide)

/-! ## C2 — Atom link normalization -/

/-- **C2.** `normalizeAtomLink` resolves an array to its first element's URL,
prefers the attribute-wrapped form over the direct form when both are present,
and returns `""` when nothing resolves; in particular the two-element direct
array yields "a". -/
theorem normalizeAtomLink_spec :
    (∀ (o : AtomLinkObj) (rest : List AtomLinkObj),
        normalizeAtomLink (some (.many (o :: rest))) = resolveAtomLinkObj o)
    ∧ (∀ a h : String, resolveAtomLinkObj ⟨some a, some h⟩ = a)
    ∧ (∀ h : String, resolveAtomLinkObj ⟨none, some h⟩ = h)
    ∧ normalizeAtomLink none = ""
    ∧ normalizeAtomLink (some (.many [])) = ""
    ∧ normalizeAtomLink (some (.single ⟨none, none⟩)) = ""
    ∧ normalizeAtomLink (some (.many [⟨none, some "a"⟩, ⟨none, some "b"⟩])) = "a" :=
  ⟨fun _ _ => rfl, fun _ _ => rfl, fun _ => rfl, rfl, rfl, rfl, rfl⟩

/-! ## C10 — empty RSS channel -/

/-- **C10.** An RSS channel with no `item` element is normalized to the
one-element sequence `[undefined]`; processing that element throws, so the
feed produces exactly one feed-failure notice and no success notice. -/
theorem emptyRssChannel_reportsFailure :
    normalizeItemSeq none = [none]
    ∧ processOneItem none = .error ()
    ∧ (∀ (name : String) (enabled : Bool),
        processOneFeed ⟨name, enabled, .rss none⟩ = [.errorUpdating name])
    ∧ (∀ (name : String) (enabled : Bool),
        (processOneFeed ⟨name, enabled, .rss none⟩).filter
          (fun e => e == FeedEvent.updated name) = []) := by
  refine ⟨rfl, rfl, fun name enabled => rfl, fun name enabled => ?_⟩
  rw [show processOneFeed ⟨name, enabled, .rss none⟩ = [.errorUpdating name] from rfl]
  simp

end LocalRss

namespace LocalRss

/-! ## C8 — per-feed failure isolation -/

theorem processItemsLoop_events (name : String) :
    ∀ (its : List (Option RawItem)) (i : Nat) (e : FeedEvent),
      e ∈ (processItemsLoop name i its).1 → ∃ j, e = .itemSaved name j := by
  intro its
  induction its with
  | nil =>
    intro i e h
    simp [processItemsLoop] at h
  | cons it rest ih =>
    intro i e h
    rw [processItemsLoop] at h
    cases hit : processOneItem it with
    | error u =>
      rw [hit] at h
      simp at h
    | ok u =>
      rw [hit] at h
      rcases hpl : processItemsLoop name (i + 1) rest with ⟨evs, threw⟩
      rw [hpl] at h
      simp only [List.mem_cons] at h
      rcases h with h | h
      · exact ⟨i, h⟩
      · apply ih (i + 1) e
        rw [hpl]
        exact h

theorem processItemsLoop_no_failure (name : String) (its : List (Option RawItem)) (i : Nat) :
    ((processItemsLoop name i its).1).filter isFailureNotice = [] := by
  rw [List.filter_eq_nil_iff]
  intro e he
  obtain ⟨j, rfl⟩ := processItemsLoop_events name its i e he
  simp [isFailureNotice]

theorem processItemsLoop_no_updated (name : String) (its : List (Option RawItem)) (i : Nat) :
    ((processItemsLoop name i its).1).filter (fun e => e == FeedEvent.updated name) = [] := by
  rw [List.filter_eq_nil_iff]
  intro e he
  obtain ⟨j, rfl⟩ := processItemsLoop_events name its i e he
  simp

/-- **C8.** The enabled-feed loop is a homomorphism over the feed list — each
feed contributes its own event segment, so a failing feed never disturbs the
processing of the feeds after it — and a failing feed (throwing fetch,
non-200 status, or a throw inside its item loop) contributes exactly one
failure notice and no success notice. -/
theorem updateFeeds_per_feed_isolation :
    (∀ (pre : List FeedRun) (f : FeedRun) (post : List FeedRun),
        runEnabled (pre ++ f :: post) =
          runEnabled pre ++ (if f.enabled then processOneFeed f else []) ++ runEnabled post)
    ∧ (∀ f : FeedRun, feedFails f = true →
        ((processOneFeed f).filter isFailureNotice).length = 1
        ∧ (processOneFeed f).filter (fun e => e == FeedEvent.updated f.name) = []) := by
  constructor
  · intro pre f post
    induction pre with
    | nil => simp [runEnabled]
    | cons g pre ih => simp [runEnabled, ih, List.append_assoc]
  · intro f hf
    obtain ⟨name, enabled, fetch⟩ := f
    cases fetch with
    | throwErr =>
      constructor
      · simp [processOneFeed, isFailureNotice]
      · simp [processOneFeed]
    | non200 =>
      constructor
      · simp [processOneFeed, isFailureNotice]
      · simp [processOneFeed]
    | unsupportedDoc => simp [feedFails] at hf
    | rss itemsField =>
      simp only [feedFails] at hf
      simp only [processOneFeed]
      rcases hpl : processItemsLoop name 0 (normalizeItemSeq itemsField) with ⟨evs, threw⟩
      rw [hpl] at hf
      simp only at hf
      rw [hf]
      simp only [if_pos]
      constructor
      · rw [List.filter_append]
        have hnf := processItemsLoop_no_failure name (normalizeItemSeq itemsField) 0
        rw [hpl] at hnf
        simp only at hnf
        rw [hnf]
        simp [isFailureNotice]
      · rw [List.filter_append]
        have hnu := processItemsLoop_no_updated name (normalizeItemSeq itemsField) 0
        rw [hpl] at hnu
        simp only at hnu
        rw [hnu]
        simp

/-- Witness for C8: two valid feeds around a feed whose fetch returns a
non-200 status — the run decomposes feed by feed, and the failing feed raises
exactly one failure notice and no success notice. -/
theorem updateFeeds_per_feed_isolation_witness :
    runEnabled [⟨"a", true, .rss (some (.arr [.good]))⟩, ⟨"bad", true, .non200⟩,
        ⟨"c", true, .rss (some (.arr [.good]))⟩] =
      runEnabled [⟨"a", true, .rss (some (.arr [.good]))⟩] ++
        (if (⟨"bad", true, .non200⟩ : FeedRun).enabled then
          processOneFeed ⟨"bad", true, .non200⟩ else []) ++
        runEnabled [⟨"c", true, .rss (some (.arr [.good]))⟩]
    ∧ ((processOneFeed ⟨"bad", true, .non200⟩).filter isFailureNotice).length = 1
    ∧ (processOneFeed ⟨"bad", true, .non200⟩).filter
        (fun e => e == FeedEvent.updated "bad") = [] :=
  ⟨updateFeeds_per_feed_isolation.1 [⟨"a", true, .rss (some (.arr [.good]))⟩]
      ⟨"bad", true, .non200⟩ [⟨"c", true, .rss (some (.arr [.good]))⟩],
    (updateFeeds_per_feed_isolation.2 ⟨"bad", true, .non200⟩ (by decide)).1,
    (updateFeeds_per_feed_isolation.2 ⟨"bad", true, .non200⟩ (by decide)).2⟩

end LocalRss

namespace LocalRss

/-! ## C4 — retention sweep, publish-date mode -/

/-- **C4, counterexample.** The claim says the file is deleted iff the
`publish_date:` line parses to a valid time strictly earlier than the cutoff.
`new Date('1970-01-01T00:00:00.000Z').getTime()` is the valid time `0`, which
is earlier than any positive cutoff, yet the code's truthiness test
`publishedTime && publishedTime < cutoffDate` treats `0` as false and keeps
the file. -/
theorem publishDateDelete_epoch_cex :
    publishDateDelete epochParse "publish_date: 1970-01-01T00:00:00.000Z\n" 1000000 = false
    ∧ epochParse "1970-01-01T00:00:00.000Z" = some 0
    ∧ ((0 : Int) < 1000000)
    ∧ extractLine "publish_date: " "publish_date: 1970-01-01T00:00:00.000Z\n" =
        some "1970-01-01T00:00:00.000Z" := by
  refine ⟨by decide, by decide, by decide, by decide⟩

/-- **C4, amended.** In publish-date mode the sweep deletes a file iff its
`publish_date:` line yields a non-empty capture that parses to a valid,
*non-zero* time strictly earlier than `cutoff = now - autoDeleteDays *
unitMillis` (`unitMillis = 60000` for "minutes", else `86400000`); the code's
truthiness test additionally rejects the exact Unix epoch. When the line is
absent the file is untouched — no creation-time fallback — whereas saved-date
mode falls back to the creation time when its `saved:` line is missing. -/
theorem deleteOldFiles_publish_mode_spec :
    (∀ now days : Int, cutoffOf now days "minutes" = now - days * 60000)
    ∧ (∀ (now days : Int) (unit : String), unit ≠ "minutes" →
        cutoffOf now days unit = now - days * 86400000)
    ∧ (∀ (parseDate : String → Option Int) (content : String) (cutoff : Int),
        publishDateDelete parseDate content cutoff = true ↔
          ∃ cap t, extractLine "publish_date: " content = some cap ∧ cap ≠ ""
            ∧ parseDate cap = some t ∧ t ≠ 0 ∧ t < cutoff)
    ∧ (∀ (parseDate : String → Option Int) (content : String) (cutoff : Int),
        extractLine "publish_date: " content = none →
          publishDateDelete parseDate content cutoff = false)
    ∧ (∀ (parseDate : String → Option Int) (content : String) (ctime cutoff : Int),
        extractLine "saved: " content = none →
          savedDelete parseDate content ctime cutoff = decide (ctime < cutoff)) := by
  refine ⟨fun now days => by simp [cutoffOf], fun now days unit h => by simp [cutoffOf, h],
    ?_, fun parseDate content cutoff h => by simp [publishDateDelete, h],
    fun parseDate content ctime cutoff h => by simp [savedDelete, h]⟩
  intro parseDate content cutoff
  unfold publishDateDelete
  cases hx : extractLine "publish_date: " content with
  | none => simp [hx]
  | some cap =>
    by_cases hcap : cap = ""
    · subst hcap
      simp
    · simp only [if_neg hcap]
      cases hp : parseDate cap with
      | none => simp [hp, hcap]
      | some t =>
        simp only [decide_eq_true_eq]
        constructor
        · intro ht
          exact ⟨cap, t, rfl, hcap, hp, ht.1, ht.2⟩
        · rintro ⟨cap2, t2, hc2, -, hp2, ht2, hlt2⟩
          obtain rfl : cap = cap2 := by injection hc2
          rw [hp] at hp2
          obtain rfl : t = t2 := by injection hp2
          exact ⟨ht2, hlt2⟩

/-- Witness for the amended C4 theorem at concrete inputs: both time units, a
deleted file with a valid old date, and the creation-time fallback of saved
mode. -/
theorem deleteOldFiles_publish_mode_spec_witness :
    cutoffOf 100 2 "minutes" = 100 - 2 * 60000
    ∧ cutoffOf 100 2 "days" = 100 - 2 * 86400000
    ∧ publishDateDelete (fun s => if s = "d" then some 50 else none)
        "---\npublish_date: d\n---\n" 100 = true
    ∧ publishDateDelete (fun s => if s = "d" then some 50 else none) "---\nbody\n" 100 = false
    ∧ savedDelete (fun _ => none) "---\nbody\n" 5 10 = decide ((5 : Int) < 10) :=
  ⟨deleteOldFiles_publish_mode_spec.1 100 2,
    deleteOldFiles_publish_mode_spec.2.1 100 2 "days" (by decide),
    (deleteOldFiles_publish_mode_spec.2.2.1 (fun s => if s = "d" then some 50 else none)
        "---\npublish_date: d\n---\n" 100).mpr
      ⟨"d", 50, by decide, by decide, by decide, by decide, by decide⟩,
    deleteOldFiles_publish_mode_spec.2.2.2.1 (fun s => if s = "d" then some 50 else none)
      "---\nbody\n" 100 (by decide),
    deleteOldFiles_publish_mode_spec.2.2.2.2 (fun _ => none) "---\nbody\n" 5 10 (by decide)⟩

end LocalRss

namespace LocalRss

/-! ## C6 — YAML escaping round trip -/

theorem mem_dropWhile_of_not (p : Char → Bool) (c : Char) (hc : p c = false) :
    ∀ l : List Char, c ∈ l → c ∈ l.dropWhile p := by
  intro l
  induction l with
  | nil => intro h; exact absurd h (List.not_mem_nil c)
  | cons x xs ih =>
    intro h
    cases hpx : p x with
    | true =>
      simp only [List.dropWhile, hpx]
      rcases List.mem_cons.mp h with rfl | hmem
      · rw [hc] at hpx
        exact absurd hpx (by simp)
      · exact ih hmem
    | false =>
      simp only [List.dropWhile, hpx]
      exact h

theorem mem_trimChars_of_not_ws (c : Char) (hc : isJsWs c = false) (l : List Char)
    (h : c ∈ l) : c ∈ trimChars l := by
  unfold trimChars
  have h1 : c ∈ l.dropWhile isJsWs := mem_dropWhile_of_not _ _ hc _ h
  have h2 : c ∈ (l.dropWhile isJsWs).reverse := List.mem_reverse.mpr h1
  have h3 := mem_dropWhile_of_not _ _ hc _ h2
  exact List.mem_reverse.mpr h3

theorem comma_mem_collapseNL : ∀ l : List Char, ',' ∈ l → ',' ∈ collapseNL l := by
  intro l
  induction l using collapseNL.induct with
  | case1 => intro h; exact absurd h (List.not_mem_nil _)
  | case2 c rest h ih =>
    intro hm
    have hcol : collapseNL (c :: rest) = ' ' :: collapseNL rest := by
      cases rest with
      | nil =>
        show (if (c == '\n') = true then ' ' :: collapseNL [] else
          if (c == '\x0d') = true then [c] else c :: collapseNL []) = ' ' :: collapseNL []
        rw [if_pos h]
      | cons d rest2 =>
        show (if (c == '\n') = true then ' ' :: collapseNL (d :: rest2) else
          if (c == '\x0d') = true then
            (if (d == '\n') = true then ' ' :: collapseNL rest2 else c :: collapseNL (d :: rest2))
          else c :: collapseNL (d :: rest2)) = ' ' :: collapseNL (d :: rest2)
        rw [if_pos h]
    rw [hcol]
    rcases List.mem_cons.mp hm with rfl | hmem
    · exact absurd h (by decide)
    · exact List.mem_cons_of_mem _ (ih hmem)
  | case3 c h1 h2 =>
    intro hm
    have hcol : collapseNL [c] = [c] := by
      show (if (c == '\n') = true then ' ' :: collapseNL [] else
        if (c == '\x0d') = true then [c] else c :: collapseNL []) = [c]
      rw [if_neg h1, if_pos h2]
    rw [hcol]
    exact hm
  | case4 c h1 h2 c1 rest h3 ih =>
    intro hm
    have hcol : collapseNL (c :: c1 :: rest) = ' ' :: collapseNL rest := by
      show (if (c == '\n') = true then ' ' :: collapseNL (c1 :: rest) else
        if (c == '\x0d') = true then
          (if (c1 == '\n') = true then ' ' :: collapseNL rest else c :: collapseNL (c1 :: rest))
        else c :: collapseNL (c1 :: rest)) = ' ' :: collapseNL rest
      rw [if_neg h1, if_pos h2, if_pos h3]
    rw [hcol]
    rcases List.mem_cons.mp hm with rfl | hmem
    · exact absurd h2 (by decide)
    rcases List.mem_cons.mp hmem with rfl | hmem2
    · exact absurd h3 (by simp)
    · exact List.mem_cons_of_mem _ (ih hmem2)
  | case5 c h1 h2 c1 rest h3 ih =>
    intro hm
    have hcol : collapseNL (c :: c1 :: rest) = c :: collapseNL (c1 :: rest) := by
      show (if (c == '\n') = true then ' ' :: collapseNL (c1 :: rest) else
        if (c == '\x0d') = true then
          (if (c1 == '\n') = true then ' ' :: collapseNL rest else c :: collapseNL (c1 :: rest))
        else c :: collapseNL (c1 :: rest)) = c :: collapseNL (c1 :: rest)
      rw [if_neg h1, if_pos h2, if_neg h3]
    rw [hcol]
    rcases List.mem_cons.mp hm with rfl | hmem
    · exact List.mem_cons_self _ _
    · exact List.mem_cons_of_mem _ (ih hmem)
  | case6 c rest h1 h2 ih =>
    intro hm
    have hcol : collapseNL (c :: rest) = c :: collapseNL rest := by
      cases rest with
      | nil =>
        show (if (c == '\n') = true then ' ' :: collapseNL [] else
          if (c == '\x0d') = true then [c] else c :: collapseNL []) = c :: collapseNL []
        rw [if_neg h1, if_neg h2]
      | cons d rest2 =>
        show (if (c == '\n') = true then ' ' :: collapseNL (d :: rest2) else
          if (c == '\x0d') = true then
            (if (d == '\n') = true then ' ' :: collapseNL rest2 else c :: collapseNL (d :: rest2))
          else c :: collapseNL (d :: rest2)) = c :: collapseNL (d :: rest2)
        rw [if_neg h1, if_neg h2]
    rw [hcol]
    rcases List.mem_cons.mp hm with rfl | hmem
    · exact List.mem_cons_self _ _
    · exact List.mem_cons_of_mem _ (ih hmem)

end LocalRss

namespace LocalRss

theorem unesc_esc : ∀ l : List Char, unescChars (escQuote (escBackslash l)) = l := by
  intro l
  induction l with
  | nil => rfl
  | cons c rest ih =>
    by_cases hb : c = '\\'
    · subst hb
      simp [escBackslash, escQuote, unescChars, ih]
    · by_cases hq : c = '\x22'
      · subst hq
        simp [escBackslash, escQuote, unescChars, ih]
      · have hb' : (c == '\\') = false := beq_eq_false_iff_ne.mpr hb
        have hq' : (c == '\x22') = false := beq_eq_false_iff_ne.mpr hq
        simp only [escBackslash, escQuote, hb', hq', if_false, ite_false]
        cases hM : escQuote (escBackslash rest) with
        | nil =>
          rw [hM] at ih
          simp only [unescChars] at ih ⊢
          rw [← ih]
        | cons m M2 =>
          rw [hM] at ih
          simp only [unescChars, hb', Bool.false_and, if_false, ite_false]
          simp [ih]

theorem stripQuotes_wrap (E : List Char) :
    stripQuotes ('\x22' :: (E ++ ['\x22'])) = E := by
  show (if (('\x22' : Char) == '\x22' && (E ++ ['\x22']).getLast? == some '\x22') = true
    then (E ++ ['\x22']).dropLast else '\x22' :: (E ++ ['\x22'])) = E
  rw [show (E ++ ['\x22']).getLast? = some '\x22' from List.getLast?_concat E]
  simp [List.dropLast_concat]

/-- **C6, counterexample.** The round-trip clause says un-escaping recovers
the original "modulo newline collapse to spaces"; but `escapeYamlValue` also
trims, so a comma-containing value with edge whitespace comes back trimmed,
not merely newline-collapsed. -/
theorem escapeYaml_roundtrip_trim_cex :
    yamlRoundTrip " a," = "a,"
    ∧ collapseOnly " a," = " a,"
    ∧ ("a," : String) ≠ " a," := by
  refine ⟨by decide, by decide, by decide⟩

/-- **C6, amended.** `escapeYamlValue` collapses line breaks to spaces, trims,
and exactly when a YAML special character remains it escapes backslashes and
quotes and wraps in double quotes (otherwise the trimmed value is returned
unmodified). For any string containing a comma, escaping, stripping the
surrounding quotes and un-escaping recovers the original modulo newline
collapse *and trimming of edge whitespace*. -/
theorem escapeYaml_roundtrip_spec :
    (∀ s : String, ',' ∈ s.data → yamlRoundTrip s = collapseTrim s)
    ∧ (∀ s : String, (trimChars (collapseNL s.data)).any isYamlSpecial = false →
        escapeYamlValue s = collapseTrim s) := by
  constructor
  · intro s hc
    have hv : ',' ∈ trimChars (collapseNL s.data) :=
      mem_trimChars_of_not_ws ',' (by decide) _ (comma_mem_collapseNL _ hc)
    have hany : (trimChars (collapseNL s.data)).any isYamlSpecial = true :=
      List.any_eq_true.mpr ⟨',', hv, by decide⟩
    unfold yamlRoundTrip escapeYamlValue collapseTrim
    rw [if_pos hany]
    show String.mk (unescChars (stripQuotes
      ('\x22' :: (escQuote (escBackslash (trimChars (collapseNL s.data))) ++ ['\x22'])))) = _
    rw [stripQuotes_wrap, unesc_esc]
  · intro s h
    unfold escapeYamlValue collapseTrim
    rw [if_neg]
    simp [h]

/-- Witness for the amended C6 theorem: a comma-containing value with edge
whitespace round-trips to its collapsed-and-trimmed form, and a value without
special characters is returned trimmed and unmodified. -/
theorem escapeYaml_roundtrip_spec_witness :
    yamlRoundTrip " x,\ny " = collapseTrim " x,\ny "
    ∧ escapeYamlValue " plain\nvalue " = collapseTrim " plain\nvalue " :=
  ⟨escapeYaml_roundtrip_spec.1 " x,\ny " (by decide),
    escapeYaml_roundtrip_spec.2 " plain\nvalue " (by decide)⟩

end LocalRss

namespace LocalRss

/-! ## C9 — default template `saved_date:` vs sweeper `saved:` -/

theorem extractTokL_of_not_occurs (tok : List Char) :
    ∀ l : List Char, occursIn tok l = false → extractTokL tok l = none := by
  intro l
  induction l with
  | nil => intro _; rfl
  | cons c rest ih =>
    intro h
    simp only [occursIn, Bool.or_eq_false_iff] at h
    simp [extractTokL, h.1, ih h.2]

/-- **C9, counterexample.** The claim says that for every file produced with
the default template the sweeper's `saved:` extraction never matches and the
delete decision is always made from the creation time. A title value
containing the literal `saved: ` defeats this: the YAML-quoted title line
matches `/saved: (.*?)$/m` first, the capture `money\x22` is not a parsable
date (`new Date('money\x22')` is Invalid Date, modelled by `invalidParse`),
and the file is then left untouched with no creation-time fallback — here the
creation time is older than the cutoff, so the claimed ctime-based decision
would delete the file, yet the code keeps it. -/
theorem savedSweep_injection_cex :
    extractLine "saved: "
        (renderTemplate (prepareTemplate defaultTemplate "https://img.example/i.png") c9InjectData)
      = some "money\x22"
    ∧ savedDelete invalidParse
        (renderTemplate (prepareTemplate defaultTemplate "https://img.example/i.png") c9InjectData)
        0 100 = false
    ∧ ((0 : Int) < 100) := by
  refine ⟨by decide, by decide, by decide⟩

/-- **C9, amended.** The default template writes the saved timestamp under the
`saved_date:` key while the sweeper's saved-mode regex looks for `saved: `,
and the default template's own text contains no `saved: `; hence whenever the
rendition contains no occurrence of the literal `saved: ` — in particular for
a default-template rendering whose substituted values do not themselves
inject it — the extraction never matches and the delete decision is made from
the file's creation time (a value injecting `saved: ` can instead match the
regex and bypass the creation-time fallback, see the counterexample). -/
theorem savedSweep_default_template_ctime :
    occursStr defaultTemplate "saved_date: \x7b\x7bsavedTime\x7d\x7d" = true
    ∧ occursStr defaultTemplate "saved: " = false
    ∧ (∀ content : String, occursStr content "saved: " = false →
        ∀ (parseDate : String → Option Int) (ctime cutoff : Int),
          savedDelete parseDate content ctime cutoff = decide (ctime < cutoff))
    ∧ occursStr (renderTemplate (prepareTemplate defaultTemplate "https://img.example/i.png")
        c9BenignData) "saved: " = false := by
  refine ⟨by decide, by decide, ?_, by decide⟩
  intro content h parseDate ctime cutoff
  unfold occursStr at h
  unfold savedDelete extractLine
  rw [extractTokL_of_not_occurs _ _ h]
  rfl

/-- Witness for the amended C9 theorem: on a benign default-template
rendering, saved-mode deletion reduces to the creation-time comparison. -/
theorem savedSweep_default_template_ctime_witness :
    savedDelete invalidParse
      (renderTemplate (prepareTemplate defaultTemplate "https://img.example/i.png") c9BenignData)
      3 7 = decide ((3 : Int) < 7) :=
  savedSweep_default_template_ctime.2.2.1 _ (by decide) invalidParse 3 7

end LocalRss

namespace LocalRss

/-! ## C5 — image extraction fallback order -/

theorem resolveMediaVal_ne_empty :
    ∀ (v : Option MediaVal) (u : String), resolveMediaVal v = some u → u ≠ "" := by
  intro v u h
  match v with
  | none => simp [resolveMediaVal] at h
  | some (.str s) =>
    simp only [resolveMediaVal] at h
    split at h
    · exact absurd h (by simp)
    · rename_i hs
      injection h with h2
      subst h2
      exact hs
  | some (.obj none) => simp [resolveMediaVal] at h
  | some (.obj (some url)) =>
    simp only [resolveMediaVal] at h
    split at h
    · exact absurd h (by simp)
    · rename_i hs
      injection h with h2
      subst h2
      exact hs

theorem resolveMediaVal_isSome :
    ∀ (v : Option MediaVal) (u : String), resolveMediaVal v = some u → v.isSome = true := by
  intro v u h
  cases v with
  | none => simp [resolveMediaVal] at h
  | some mv => rfl

theorem enclosureStep_some_ne_empty :
    ∀ (enc : Option EnclosureVal) (u : String), enclosureStep enc = some u → u ≠ "" := by
  intro enc u h
  match enc with
  | none => simp [enclosureStep] at h
  | some e =>
    simp only [enclosureStep] at h
    split at h
    · exact absurd h (by simp)
    · split at h
      · exact absurd h (by simp)
      · rename_i hu
        split at h
        · injection h with h2
          subst h2
          exact hu
        · split at h
          · injection h with h2
            subst h2
            exact hu
          · exact absurd h (by simp)

theorem enclosureStep_isSome :
    ∀ (enc : Option EnclosureVal) (u : String), enclosureStep enc = some u → enc.isSome = true := by
  intro enc u h
  cases enc with
  | none => simp [enclosureStep] at h
  | some e => rfl

end LocalRss

namespace LocalRss

/-- **C5.** `extractFromItem` tries `media:content`, then `media:thumbnail`,
then the enclosure, then the embedded-HTML `<img>`, the first success
short-circuiting; an enclosure is accepted iff its URL is non-empty and has
an accepted image extension, contains a known image-host substring, or
carries an explicit `image/*` MIME type — otherwise the enclosure step yields
nothing and extraction falls through to the HTML step. Concretely, an item
with both a `media:content` attribute object and an embedded `<img>` returns
the `media:content` URL, an audio enclosure falls through to the embedded
image, and an item with nothing yields `""`. -/
theorem extractFromItem_fallback_spec :
    (∀ (it : ExtractItem) (u : String),
        resolveMediaVal it.mediaContent = some u → extractFromItem it = u)
    ∧ (∀ (it : ExtractItem) (u : String),
        resolveMediaVal it.mediaContent = none →
        resolveMediaVal it.mediaThumbnail = some u → extractFromItem it = u)
    ∧ (∀ (it : ExtractItem) (u : String),
        resolveMediaVal it.mediaContent = none →
        resolveMediaVal it.mediaThumbnail = none →
        enclosureStep it.enclosure = some u → extractFromItem it = u)
    ∧ (∀ (e : EnclosureVal) (u : String),
        enclosureStep (some e) = some u ↔
          u = enclosureUrlOf e ∧ u ≠ ""
            ∧ (isImageUrl u = true ∨ encMimeImage e = true))
    ∧ (∀ it : ExtractItem,
        resolveMediaVal it.mediaContent = none →
        resolveMediaVal it.mediaThumbnail = none →
        enclosureStep it.enclosure = none →
        extractFromItem it = extractFromHtmlContent it)
    ∧ extractFromItem c5MediaAndImgItem = "https://m.example/pic.png"
    ∧ extractFromHtmlContent c5MediaAndImgItem = "https://e.example/i.jpg"
    ∧ extractFromItem c5AudioEnclosureItem = "https://e.example/i.jpg"
    ∧ extractFromItem c5EmptyItem = "" := by
  refine ⟨?_, ?_, ?_, ?_, ?_, by decide, by decide, by decide, by decide⟩
  · intro it u h
    have hne := resolveMediaVal_ne_empty _ _ h
    have hsome := resolveMediaVal_isSome _ _ h
    simp [extractFromItem, extractFromMediaElements, hsome, h, hne]
  · intro it u hmc h
    have hne := resolveMediaVal_ne_empty _ _ h
    have hsome := resolveMediaVal_isSome _ _ h
    simp [extractFromItem, extractFromMediaElements, hsome, hmc, h, hne]
  · intro it u hmc hmt h
    have hne := enclosureStep_some_ne_empty _ _ h
    have hsome := enclosureStep_isSome _ _ h
    simp [extractFromItem, extractFromMediaElements, hsome, hmc, hmt, h, hne]
  · intro e u
    constructor
    · intro h
      have hne := enclosureStep_some_ne_empty _ _ h
      simp only [enclosureStep] at h
      split at h
      · exact absurd h (by simp)
      · split at h
        · exact absurd h (by simp)
        · rename_i hu
          split at h
          · rename_i himg
            injection h with h2
            subst h2
            exact ⟨rfl, hu, Or.inl himg⟩
          · split at h
            · rename_i himg hmime
              injection h with h2
              subst h2
              exact ⟨rfl, hu, Or.inr hmime⟩
            · exact absurd h (by simp)
    · rintro ⟨rfl, hu, himg⟩
      have ht : enclosureTruthy e = true := by
        cases e with
        | str s =>
          simp only [enclosureUrlOf] at hu
          simp [enclosureTruthy, hu]
        | obj uo mo => rfl
      rcases himg with himg | hmime
      · simp [enclosureStep, ht, hu, himg]
      · by_cases himg2 : isImageUrl (enclosureUrlOf e) = true
        · simp [enclosureStep, ht, hu, himg2]
        · simp [enclosureStep, ht, hu, himg2, hmime]
  · intro it hmc hmt henc
    by_cases hgate : (it.mediaContent.isSome || it.mediaThumbnail.isSome ||
        it.enclosure.isSome) = true
    · simp only [extractFromItem, extractFromMediaElements, hgate, if_true, hmc, hmt, henc,
        Option.getD_none]
      by_cases hc : extractFromHtmlContent it = ""
      · simp [hc]
      · simp [hc]
    · simp only [extractFromItem, extractFromMediaElements, hgate, if_false]
      by_cases hc : extractFromHtmlContent it = ""
      · simp [hc]
      · simp [hc]

/-- Witness for C5 at concrete items: each fallback stage short-circuits, and
an accepted `.png` enclosure passes the acceptance test. -/
theorem extractFromItem_fallback_spec_witness :
    extractFromItem ⟨some (.obj (some "https://m.example/a.png")), none, none, none, none,
        none, none⟩ = "https://m.example/a.png"
    ∧ extractFromItem ⟨none, some (.str "https://t.example/t.gif"), none, none, none,
        none, none⟩ = "https://t.example/t.gif"
    ∧ extractFromItem ⟨none, none, some (.obj (some "https://c.example/p.PNG?x=1") none),
        none, none, none, none⟩ = "https://c.example/p.PNG?x=1"
    ∧ (enclosureStep (some (.obj (some "https://c.example/p.PNG?x=1") none)) =
        some "https://c.example/p.PNG?x=1") :=
  ⟨extractFromItem_fallback_spec.1 _ _ (by decide),
    extractFromItem_fallback_spec.2.1 _ _ (by decide) (by decide),
    extractFromItem_fallback_spec.2.2.1 _ _ (by decide) (by decide) (by decide),
    (extractFromItem_fallback_spec.2.2.2.1 _ _).mpr ⟨by decide, by decide, Or.inl (by decide)⟩⟩

end LocalRss

namespace LocalRss

/-! ## C3 — OGP / Twitter Card image fetch -/

/-- **C3.** `fetchFromUrl` consults the four meta-tag matchers in source order
(og:image property-first, its attribute-order-swapped variant, then the same
two orderings for twitter:image) and uses the first non-empty capture; a
root-relative result is rewritten against the origin of the fetched page; a
failing `new URL` (the only throwing step of the try block) is caught and
yields `""`; a failed or empty fetch yields `""`. -/
theorem fetchFromUrl_spec :
    (∀ (urlOrigin : String → Option String) (url : String), fetchFromUrl urlOrigin "" url = "")
    ∧ (∀ html : String, ogImageMatch1 html ≠ "" → firstMeta html = ogImageMatch1 html)
    ∧ (∀ html : String, ogImageMatch1 html = "" → ogImageMatch2 html ≠ "" →
        firstMeta html = ogImageMatch2 html)
    ∧ (∀ html : String, ogImageMatch1 html = "" → ogImageMatch2 html = "" →
        twitterImageMatch1 html ≠ "" → firstMeta html = twitterImageMatch1 html)
    ∧ (∀ html : String, ogImageMatch1 html = "" → ogImageMatch2 html = "" →
        twitterImageMatch1 html = "" → firstMeta html = twitterImageMatch2 html)
    ∧ (∀ (urlOrigin : String → Option String) (html url : String), html ≠ "" →
        firstMeta html ≠ "" → strStartsWith (firstMeta html) "/" = false →
        fetchFromUrl urlOrigin html url = firstMeta html)
    ∧ (∀ (urlOrigin : String → Option String) (html url origin : String), html ≠ "" →
        firstMeta html ≠ "" → strStartsWith (firstMeta html) "/" = true →
        urlOrigin url = some origin →
        fetchFromUrl urlOrigin html url = origin ++ firstMeta html)
    ∧ (∀ (urlOrigin : String → Option String) (html url : String), html ≠ "" →
        firstMeta html ≠ "" → strStartsWith (firstMeta html) "/" = true →
        urlOrigin url = none → fetchFromUrl urlOrigin html url = "") := by
  refine ⟨fun urlOrigin url => rfl, ?_, ?_, ?_, ?_, ?_, ?_, ?_⟩
  · intro html h1
    simp [firstMeta, h1]
  · intro html h1 h2
    simp [firstMeta, h1, h2]
  · intro html h1 h2 h3
    simp [firstMeta, h1, h2, h3]
  · intro html h1 h2 h3
    simp [firstMeta, h1, h2, h3]
  · intro urlOrigin html url hh hm hs
    simp [fetchFromUrl, hh, hm, hs]
  · intro urlOrigin html url origin hh hm hs ho
    simp [fetchFromUrl, hh, hm, hs, ho]
  · intro urlOrigin html url hh hm hs ho
    simp [fetchFromUrl, hh, hm, hs, ho]

/-- Witness for C3: on a page carrying a twitter:image before an og:image,
the property-first og:image matcher wins, and its root-relative capture is
rewritten against the page origin. -/
theorem fetchFromUrl_spec_witness :
    fetchFromUrl (fun _ => some "https://ex.example") c3SampleHtml "https://ex.example/p" =
      "https://ex.example/og.png" :=
  (fetchFromUrl_spec.2.2.2.2.2.2.1 (fun _ => some "https://ex.example") c3SampleHtml
      "https://ex.example/p" "https://ex.example" (by decide) (by decide) (by decide)
      (by decide)).trans (by decide)

end LocalRss

namespace LocalRss

/-! ## C7 — skip-if-exists and idempotence -/

theorem vaultHas_append (v w : Vault) (q : String) :
    vaultHas (v ++ w) q = (vaultHas v q || vaultHas w q) := by
  unfold vaultHas
  exact List.any_append

theorem vaultHas_writeStep_mono (v : Vault) (p c q : String) (h : vaultHas v q = true) :
    vaultHas (writeStep v p c) q = true := by
  unfold writeStep
  by_cases hp : vaultHas v p = true
  · rw [if_pos hp]
    exact h
  · rw [if_neg hp, vaultHas_append, h, Bool.true_or]

theorem vaultHas_writeStep_self (v : Vault) (p c : String) :
    vaultHas (writeStep v p c) p = true := by
  unfold writeStep
  by_cases hp : vaultHas v p = true
  · rw [if_pos hp]
    exact hp
  · rw [if_neg hp, vaultHas_append]
    have h2 : vaultHas [(p, c)] p = true := by simp [vaultHas]
    rw [h2, Bool.or_true]

theorem processPass_preserves (fmtDate : String → String) (render : ItemKey → String → String)
    (tmpl folder nowIso q : String) :
    ∀ (items : List ItemKey) (v : Vault), vaultHas v q = true →
      vaultHas (processPass fmtDate render tmpl folder nowIso v items) q = true := by
  intro items
  induction items with
  | nil => intro v h; exact h
  | cons it rest ih =>
    intro v h
    simp only [processPass, List.foldl_cons] at ih ⊢
    exact ih _ (vaultHas_writeStep_mono _ _ _ _ h)

theorem processPass_has_path (fmtDate : String → String) (render : ItemKey → String → String)
    (tmpl folder nowIso : String) :
    ∀ (items : List ItemKey) (v : Vault) (it : ItemKey), it ∈ items →
      vaultHas (processPass fmtDate render tmpl folder nowIso v items)
        (computedPath fmtDate tmpl folder nowIso it) = true := by
  intro items
  induction items with
  | nil => intro v it h; exact absurd h (List.not_mem_nil it)
  | cons hd rest ih =>
    intro v it h
    simp only [processPass, List.foldl_cons]
    rcases List.mem_cons.mp h with rfl | hmem
    · have h1 := vaultHas_writeStep_self v (computedPath fmtDate tmpl folder nowIso it)
        (render it nowIso)
      have h2 := processPass_preserves fmtDate render tmpl folder nowIso
        (computedPath fmtDate tmpl folder nowIso it) rest _ h1
      simpa [processPass] using h2
    · have h2 := ih (writeStep v (computedPath fmtDate tmpl folder nowIso hd) (render hd nowIso))
        it hmem
      simpa [processPass] using h2

theorem processPass_noop (fmtDate : String → String) (render : ItemKey → String → String)
    (tmpl folder nowIso : String) :
    ∀ (items : List ItemKey) (w : Vault),
      (∀ it ∈ items, vaultHas w (computedPath fmtDate tmpl folder nowIso it) = true) →
      processPass fmtDate render tmpl folder nowIso w items = w := by
  intro items
  induction items with
  | nil => intro w _; rfl
  | cons hd rest ih =>
    intro w h
    simp only [processPass, List.foldl_cons]
    have hw : writeStep w (computedPath fmtDate tmpl folder nowIso hd) (render hd nowIso) = w := by
      unfold writeStep
      rw [if_pos (h hd (List.mem_cons_self hd rest))]
    rw [hw]
    have h2 := ih w fun it hit => h it (List.mem_cons_of_mem hd hit)
    simpa [processPass] using h2

theorem computedPath_time_indep (fmtDate : String → String) (tmpl folder : String) (it : ItemKey)
    (h : pubDatePresent it = true ∨
      occursStr (replaceAll tmpl tokTitle (titleOf it)) tokPublished = false)
    (now1 now2 : String) :
    computedPath fmtDate tmpl folder now1 it = computedPath fmtDate tmpl folder now2 it := by
  rcases h with h | h
  · have key : pubDateStrOf it now1 = pubDateStrOf it now2 := by
      unfold pubDatePresent at h
      unfold pubDateStrOf jsOrStr
      cases hpd : it.pubDate with
      | some s =>
        by_cases hs : s = ""
        · subst hs
          rw [hpd] at h
          simp only [beq_self_eq_true, Bool.not_true, Bool.false_or] at h
          cases hpub : it.published with
          | some p =>
            rw [hpub] at h
            simp only [Bool.not_eq_true', beq_eq_false_iff_ne, ne_eq] at h
            simp [h]
          | none =>
            rw [hpub] at h
            simp at h
        · simp [hs]
      | none =>
        rw [hpd] at h
        simp only [Bool.false_or] at h
        cases hpub : it.published with
        | some p =>
          rw [hpub] at h
          simp only [Bool.not_eq_true', beq_eq_false_iff_ne, ne_eq] at h
          simp [h]
        | none =>
          rw [hpub] at h
          simp at h
    dsimp only [computedPath]
    rw [key]
  · dsimp only [computedPath]
    rw [replaceAll_of_not_occurs _ _ _ h, replaceAll_of_not_occurs _ _ _ h]

/-- **C7, counterexample.** The claim's idempotence clause fails when an item
supplies no date and the filename template references the published token:
the missing date falls back to the processing time, so a second run at a
different time computes a fresh path and creates a second file — after run 1
the vault holds one file, after run 2 it holds two. -/
theorem idempotence_missing_date_cex :
    (processPass (fun s => s) (fun _ _ => "") tokPublished "RSS/F" "t1" []
        [⟨none, none, none⟩]).length = 1
    ∧ (processPass (fun s => s) (fun _ _ => "") tokPublished "RSS/F" "t2"
        (processPass (fun s => s) (fun _ _ => "") tokPublished "RSS/F" "t1" []
          [⟨none, none, none⟩])
        [⟨none, none, none⟩]).length = 2 := by
  refine ⟨by decide, by decide⟩

/-- **C7, amended.** A write to an already-existing path is skipped entirely
(the vault is returned unchanged — no overwrite, no new file, no error), and
running the pass twice on an unchanged item list adds and modifies nothing on
the second run *provided* each item's computed filename does not depend on
the processing time — i.e. the item supplies a truthy `pubDate` or
`published`, or the title-substituted filename template contains no
published token (an item missing both dates under a `published`-referencing
filename template re-derives a fresh path each run; see the counterexample). -/
theorem processPass_idempotent :
    (∀ (v : Vault) (path content : String), vaultHas v path = true →
        writeStep v path content = v)
    ∧ (∀ (fmtDate : String → String) (render : ItemKey → String → String)
        (tmpl folder now1 now2 : String) (v : Vault) (items : List ItemKey),
        (∀ it ∈ items, pubDatePresent it = true ∨
            occursStr (replaceAll tmpl tokTitle (titleOf it)) tokPublished = false) →
        processPass fmtDate render tmpl folder now2
            (processPass fmtDate render tmpl folder now1 v items) items
          = processPass fmtDate render tmpl folder now1 v items) := by
  constructor
  · intro v path content h
    unfold writeStep
    rw [if_pos h]
  · intro fmtDate render tmpl folder now1 now2 v items h
    apply processPass_noop
    intro it hit
    rw [computedPath_time_indep fmtDate tmpl folder it (h it hit) now2 now1]
    exact processPass_has_path fmtDate render tmpl folder now1 items v it hit

/-- Witness for the amended C7 theorem: a skipped write leaves the vault
unchanged, and a second pass over a dated item is a no-op. -/
theorem processPass_idempotent_witness :
    writeStep [("RSS/F/T.md", "old")] "RSS/F/T.md" "new" = [("RSS/F/T.md", "old")]
    ∧ processPass (fun s => s) (fun _ _ => "body") tokTitle "RSS/F" "t2"
        (processPass (fun s => s) (fun _ _ => "body") tokTitle "RSS/F" "t1" []
          [⟨some "T", some "2024-01-01", none⟩])
        [⟨some "T", some "2024-01-01", none⟩]
      = processPass (fun s => s) (fun _ _ => "body") tokTitle "RSS/F" "t1" []
          [⟨some "T", some "2024-01-01", none⟩] :=
  ⟨processPass_idempotent.1 [("RSS/F/T.md", "old")] "RSS/F/T.md" "new" (by decide),
    processPass_idempotent.2 (fun s => s) (fun _ _ => "body") tokTitle "RSS/F" "t1" "t2" []
      [⟨some "T", some "2024-01-01", none⟩]
      (by
        intro it hit
        rw [List.mem_singleton] at hit
        subst hit
        exact Or.inl (by decide))⟩

end LocalRss
